import Mathlib

/-!
Verification development for the `github_release_check` crate
(`src/lib.rs`): a client that pages through the GitHub releases REST
endpoint, parses the `link` continuation header, and resolves the
latest semantic version among the release tags.

The Rust source is shallowly embedded below:

* `get_last_page`   — the continuation parser (`src/lib.rs:391-410`),
  including a faithful model of the regular expression
  `(\w*)page=(\d+)` and of `Regex::captures_iter` (leftmost, greedy,
  non-overlapping matches).
* `query_run`       — the pagination loop (`GitHub::query`,
  `src/lib.rs:251-302`), instrumented to also return the ordered
  list of page numbers that were requested from the transport.
* `get_all_versions`, `resolveLatest`, `get_latest_version` —
  the version-listing and version-resolution operations
  (`src/lib.rs:322-328` and `src/lib.rs:367-382`).
* `semverParse`, `cmpSemVer` — a model of the external `semver`
  crate collaborator (SemVer 2.0.0 grammar and precedence, as the
  crate implements them, including its total order on build metadata).

The HTTP transport is modelled as a function from a page number to an
optional response (`none` = network failure); panics (`expect`) are
modelled with the `PanicOr` wrapper.
-/

set_option maxRecDepth 8000

deriving instance DecidableEq for Except

namespace GithubReleaseCheck

/-- The error enumeration `LookupError` of `src/lib.rs:77-99`.
`HttpClient` covers all `reqwest::Error` sources (request build,
execution, JSON decoding); `HeaderToString` is the non-ASCII header
decoding failure; the status-carrying variants keep their `u16`
payload as a `Nat`. -/
inductive LookupError where
  | HttpClient : LookupError
  | HeaderValue : LookupError
  | HeaderToString : LookupError
  | NoReleases : LookupError
  | RepositoryNotFound : LookupError
  | AuthenticationError : Nat → LookupError
  | ErrorHttpResponse : Nat → LookupError
deriving DecidableEq

/-- The release record `GitHubReleaseItem` of `src/lib.rs:142-154`. -/
structure GitHubReleaseItem where
  url : String
  assets_url : String
  upload_url : String
  html_url : String
  tag_name : String
  name : String
  draft : Bool
  prerelease : Bool
  created_at : String
  published_at : String
  body : String
deriving DecidableEq

/-- Outcome of running Rust code that may `panic!` (via `expect`):
either a normal value or an aborted computation. -/
inductive PanicOr (α : Type) where
  | panicked : PanicOr α
  | ok : α → PanicOr α
deriving DecidableEq

/-- One HTTP response from the upstream API: status code, response
headers (name/value pairs) and the body already decoded into release
records (`none` models a `response.json()` failure). -/
structure HttpResponse where
  status : Nat
  headers : List (String × String)
  body : Option (List GitHubReleaseItem)
deriving DecidableEq

/-! ## Continuation parser (`get_last_page`, `src/lib.rs:391-410`) -/

/-- `\w` of the Rust regex, on the ASCII range: letters, digits, `_`. -/
def isWordChar (c : Char) : Bool := c.isAlpha || c.isDigit || c = '_'

/-- `\d` of the Rust regex, on the ASCII range. -/
def isDigitChar (c : Char) : Bool := c.isDigit

/-- Strip the literal `page=` from the front of a character list. -/
def stripPageEq : List Char → Option (List Char)
  | 'p' :: 'a' :: 'g' :: 'e' :: '=' :: rest => some rest
  | _ => none

/-- Try to match `(\w*)page=(\d+)` at the start of `cs` with the
`\w*` group taking exactly `L` characters: requires the literal
`page=` at offset `L` followed by at least one digit.  Returns
(group 1, group 2, rest after the match). -/
def checkAt (cs : List Char) (L : Nat) : Option (List Char × List Char × List Char) :=
  match stripPageEq (cs.drop L) with
  | some rest =>
    let ds := rest.takeWhile isDigitChar
    if ds = [] then none else some (cs.take L, ds, rest.drop ds.length)
  | none => none

/-- Backtracking search for the greedy `\w*` length: try `L` first
(the longest candidate), then shorter ones.  Mirrors the regex
engine's greedy-then-backtrack behaviour for `(\w*)page=(\d+)`. -/
def tryLen (cs : List Char) : Nat → Option (List Char × List Char × List Char)
  | 0 => checkAt cs 0
  | L + 1 =>
    match checkAt cs (L + 1) with
    | some r => some r
    | none => tryLen cs L

/-- Try to match `(\w*)page=(\d+)` anchored at the start of `cs`,
with `\w*` greedy: the longest word-character run at the start is
tried first. -/
def tryMatchHere (cs : List Char) : Option (List Char × List Char × List Char) :=
  tryLen cs (cs.takeWhile isWordChar).length

/-- Fuelled scan implementing `Regex::captures_iter` for
`(\w*)page=(\d+)`: find the leftmost match, emit its capture groups,
continue after the end of the match (non-overlapping).  Every step
consumes at least one character, so fuel `cs.length` is exact. -/
def capturesIterAux : Nat → List Char → List (List Char × List Char)
  | 0, _ => []
  | _ + 1, [] => []
  | fuel + 1, c :: cs =>
    match tryMatchHere (c :: cs) with
    | some (g1, g2, rest) => (g1, g2) :: capturesIterAux fuel rest
    | none => capturesIterAux fuel cs

/-- All successive non-overlapping matches of `(\w*)page=(\d+)` in
`cs`, as (group 1, group 2) pairs, left to right. -/
def capturesIter (cs : List Char) : List (List Char × List Char) :=
  capturesIterAux cs.length cs

/-- Rust `str::split(',')`: pieces between commas, keeping empties. -/
def splitComma : List Char → List (List Char)
  | [] => [[]]
  | c :: cs =>
    let r := splitComma cs
    if c = ',' then [] :: r
    else
      match r with
      | [] => [[c]]
      | p :: ps => (c :: p) :: ps

/-- Rust `str::contains` for a literal pattern: `needle` occurs as a
contiguous substring of `hay`. -/
def containsSub : List Char → List Char → Bool
  | [], needle => needle.isEmpty
  | c :: t, needle => needle.isPrefixOf (c :: t) || containsSub t needle

/-- The literal pattern `rel="last"` tested by `src/lib.rs:397`. -/
def relLastPat : List Char := ['r', 'e', 'l', '=', '"', 'l', 'a', 's', 't', '"']

/-- The inner capture loop of `src/lib.rs:400-407`: the first capture
whose group 1 (the `\w*` part) is empty yields its group 2 digits. -/
def findCapture : List (List Char × List Char) → Option (List Char)
  | [] => none
  | (g1, g2) :: rest => if g1 = [] then some g2 else findCapture rest

/-- `str::parse::<usize>` on a digit string: the numeric value, or
`none` on 64-bit overflow (the only way `\d+` can fail to parse). -/
def parseUsizeDigits (ds : List Char) : Option Nat :=
  let n := ds.foldl (fun a c => a * 10 + (c.toNat - 48)) 0
  if n < 2 ^ 64 then some n else none

/-- The `for page_ref in links.split(',')` loop of
`src/lib.rs:396-408`: skip parts without `rel="last"`; in a part with
it, take the first empty-group-1 capture and parse its digits
(`expect` = panic on failure); otherwise keep scanning. -/
def scanParts : List (List Char) → PanicOr (Option Nat)
  | [] => .ok none
  | p :: ps =>
    if containsSub p relLastPat then
      match findCapture (capturesIter p) with
      | some ds =>
        match parseUsizeDigits ds with
        | some n => .ok (some n)
        | none => .panicked
      | none => scanParts ps
    else scanParts ps

/-- ASCII lowercasing, for the case-insensitive header-name lookup
performed by `HeaderMap::get`. -/
def lowerChar (c : Char) : Char :=
  if 'A' ≤ c ∧ c ≤ 'Z' then Char.ofNat (c.toNat + 32) else c

/-- `HeaderMap::get`: first header whose name equals `name`
case-insensitively. -/
def headerGet (hs : List (String × String)) (name : String) : Option String :=
  (hs.find? (fun p => p.1.data.map lowerChar == name.data.map lowerChar)).map (fun p => p.2)

/-- `HeaderValue::to_str` succeeds only on visible-ASCII bytes
(32–126) or tab. -/
def isVisibleAsciiOrTab (c : Char) : Bool :=
  (decide (32 ≤ c.toNat) && decide (c.toNat < 127)) || decide (c.toNat = 9)

/-- `get_last_page` (`src/lib.rs:391-410`): look up the `link` header
(absent ⟹ `Ok(None)`), decode it as text (non-visible-ASCII ⟹
`ToStrError`), then scan the comma-separated parts for a `rel="last"`
entry and extract the `page=` number. -/
def get_last_page (headers : List (String × String)) : PanicOr (Except LookupError (Option Nat)) :=
  match headerGet headers "link" with
  | none => .ok (.ok none)
  | some l =>
    if l.data.all isVisibleAsciiOrTab then
      match scanParts (splitComma l.data) with
      | .panicked => .panicked
      | .ok r => .ok (.ok r)
    else .ok (.error .HeaderToString)

/-! ## Paginator (`GitHub::query`, `src/lib.rs:251-302`) -/

/-- `reqwest::StatusCode::is_success`: 200–299. -/
def statusIsSuccess (s : Nat) : Bool := decide (200 ≤ s) && decide (s < 300)

/-- The non-success status dispatch of `src/lib.rs:276-283`: `404` ⟹
`RepositoryNotFound`; `401`/`403` ⟹ `AuthenticationError(status)`;
otherwise `ErrorHttpResponse(status)`. -/
def statusError (s : Nat) : LookupError :=
  if s = 404 then .RepositoryNotFound
  else if s = 401 ∨ s = 403 then .AuthenticationError s
  else .ErrorHttpResponse s

/-- The pagination loop from the second iteration on: `last_page` is
already `Some last` (the probe at `src/lib.rs:285-288` runs only while
`last_page.is_none()`, i.e. on the first response).  Each iteration
requests `page`, checks the status, decodes the body, then increments
the page counter and stops when the incremented counter reaches
`last` (`if page >= last { break }`, `src/lib.rs:290-294`).
Returns the requested page numbers and the per-page record lists. -/
def query_rest (transport : Nat → Option HttpResponse) (last : Nat) (page : Nat) :
    List Nat × Except LookupError (List (List GitHubReleaseItem)) :=
  match transport page with
  | none => ([page], .error .HttpClient)
  | some resp =>
    if statusIsSuccess resp.status then
      match resp.body with
      | none => ([page], .error .HttpClient)
      | some records =>
        if h : last ≤ page + 1 then ([page], .ok [records])
        else
          let r := query_rest transport last (page + 1)
          (page :: r.1, r.2.map (fun rest => records :: rest))
    else ([page], .error (statusError resp.status))
termination_by last - page
decreasing_by simp at h; omega

/-- `GitHub::query` (`src/lib.rs:251-302`), instrumented with the
ordered list of page numbers requested from the transport.  First
iteration: request page 1, dispatch on the status, probe the headers
with `get_last_page` (which may fail or panic), decode the body, then
either stop (no last page, or `2 >= last`) or continue with
`query_rest` from page 2.  The accumulated pages are flattened in
request order (`src/lib.rs:301`). -/
def query_run (transport : Nat → Option HttpResponse) :
    List Nat × PanicOr (Except LookupError (List GitHubReleaseItem)) :=
  match transport 1 with
  | none => ([1], .ok (.error .HttpClient))
  | some resp =>
    if statusIsSuccess resp.status then
      match get_last_page resp.headers with
      | .panicked => ([1], .panicked)
      | .ok (.error e) => ([1], .ok (.error e))
      | .ok (.ok none) =>
        match resp.body with
        | none => ([1], .ok (.error .HttpClient))
        | some records => ([1], .ok (.ok [records].flatten))
      | .ok (.ok (some last)) =>
        match resp.body with
        | none => ([1], .ok (.error .HttpClient))
        | some records =>
          if last ≤ 1 + 1 then ([1], .ok (.ok [records].flatten))
          else
            let r := query_rest transport last (1 + 1)
            (1 :: r.1, .ok (r.2.map (fun rest => (records :: rest).flatten)))
    else ([1], .ok (.error (statusError resp.status)))

/-- `GitHub::get_all_versions` (`src/lib.rs:322-328`): the `tag_name`
of every queried record, in order. -/
def get_all_versions (transport : Nat → Option HttpResponse) :
    PanicOr (Except LookupError (List String)) :=
  match (query_run transport).2 with
  | .panicked => .panicked
  | .ok (.error e) => .ok (.error e)
  | .ok (.ok recs) => .ok (.ok (recs.map (fun r => r.tag_name)))

/-! ## Semantic versions (model of the external `semver` crate)

The version resolver (`GitHub::get_latest_version`,
`src/lib.rs:367-382`) delegates parsing and ordering to the `semver`
crate, an external collaborator.  The definitions below model that
crate: `Version::parse` implements exactly the SemVer 2.0.0 grammar
(with `u64` components), and `Ord for Version` compares major, minor,
patch numerically, then pre-release per SemVer precedence, then build
metadata (the crate's total-order extension). -/

/-- An identifier character of a pre-release or build segment:
`[0-9A-Za-z-]`. -/
def isIdentChar (c : Char) : Bool := c.isAlpha || c.isDigit || c = '-'

/-- Numeric value of a digit string. -/
def digitsToNat (ds : List Char) : Nat :=
  ds.foldl (fun a c => a * 10 + (c.toNat - 48)) 0

/-- Parse a `major`/`minor`/`patch` numeric component at the front of
`cs`: a non-empty digit run, no leading zero (unless exactly `0`),
value below `2^64` (the crate stores `u64`).  Returns the value and
the rest of the input. -/
def parseNumericPart (cs : List Char) : Option (Nat × List Char) :=
  let ds := cs.takeWhile isDigitChar
  if ds = [] then none
  else if 2 ≤ ds.length ∧ ds.head? = some '0' then none
  else if digitsToNat ds < 2 ^ 64 then some (digitsToNat ds, cs.drop ds.length)
  else none

/-- Split a character list on `.` separators (keeping empties). -/
def splitDot : List Char → List (List Char)
  | [] => [[]]
  | c :: cs =>
    let r := splitDot cs
    if c = '.' then [] :: r
    else
      match r with
      | [] => [[c]]
      | p :: ps => (c :: p) :: ps

/-- A valid pre-release identifier: non-empty, identifier characters
only, and a purely numeric identifier must not have a leading zero. -/
def validPreIdent (id : List Char) : Bool :=
  !id.isEmpty && id.all isIdentChar &&
    (if id.all Char.isDigit then decide (id.length = 1) || !(id.head? == some '0') else true)

/-- A valid build-metadata identifier: non-empty, identifier
characters only (leading zeros allowed). -/
def validBuildIdent (id : List Char) : Bool :=
  !id.isEmpty && id.all isIdentChar

/-- A parsed semantic version (`semver::Version`): numeric triple,
pre-release identifiers, build-metadata identifiers. -/
structure SemVer where
  major : Nat
  minor : Nat
  patch : Nat
  pre : List (List Char)
  build : List (List Char)
deriving DecidableEq

/-- Parse the optional pre-release and build suffix that follows the
numeric triple. -/
def parseSuffix (major minor patch : Nat) (rest : List Char) : Option SemVer :=
  match rest with
  | [] => some ⟨major, minor, patch, [], []⟩
  | '-' :: r =>
    let preCs := r.takeWhile (fun c => c ≠ '+')
    let pre := splitDot preCs
    if pre.all validPreIdent then
      match r.drop preCs.length with
      | [] => some ⟨major, minor, patch, pre, []⟩
      | '+' :: b =>
        let build := splitDot b
        if build.all validBuildIdent then some ⟨major, minor, patch, pre, build⟩ else none
      | _ => none
    else none
  | '+' :: b =>
    let build := splitDot b
    if build.all validBuildIdent then some ⟨major, minor, patch, [], build⟩ else none
  | _ => none

/-- `semver::Version::parse`: `major.minor.patch` with optional
`-pre` and `+build` suffixes, strict SemVer 2.0.0 grammar, nothing
trailing. -/
def semverParse (s : String) : Option SemVer :=
  match parseNumericPart s.data with
  | none => none
  | some (major, r1) =>
    match r1 with
    | '.' :: r1' =>
      match parseNumericPart r1' with
      | none => none
      | some (minor, r2) =>
        match r2 with
        | '.' :: r2' =>
          match parseNumericPart r2' with
          | none => none
          | some (patch, r3) => parseSuffix major minor patch r3
        | _ => none
    | _ => none

/-! ### The `semver` crate's total order -/

/-- Comparator on `Nat` (`u64::cmp`). -/
def natCmp (a b : Nat) : Ordering :=
  if a < b then .lt else if b < a then .gt else .eq

/-- Comparator on characters by code point; on the ASCII strings the
crate compares, this coincides with Rust's byte-wise `str::cmp`. -/
def charCmp (a b : Char) : Ordering := natCmp a.toNat b.toNat

/-- Sequence two comparators on the same arguments: the second one
breaks ties of the first. -/
def thenCmp (f g : α → α → Ordering) (a b : α) : Ordering :=
  (f a b).then (g a b)

/-- Lexicographic comparator on lists: element-wise, a strict prefix
is smaller. -/
def lexCmp (c : α → α → Ordering) : List α → List α → Ordering
  | [], [] => .eq
  | [], _ :: _ => .lt
  | _ :: _, [] => .gt
  | x :: xs, y :: ys =>
    match c x y with
    | .eq => lexCmp c xs ys
    | o => o

/-- Does an identifier consist only of ASCII digits?  (The crate
tests `bytes().all(is_ascii_digit)`.) -/
def identIsNumeric (id : List Char) : Bool := id.all Char.isDigit

/-- Pre-release identifier precedence (`semver`'s `Ord for
Prerelease`, per identifier): numeric identifiers sort below
alphanumeric ones; two numeric identifiers compare by length then
lexically (= numerically, absent leading zeros); alphanumeric ones
compare lexically. -/
def cmpPreIdent (a b : List Char) : Ordering :=
  match identIsNumeric a, identIsNumeric b with
  | true, true => thenCmp (fun x y => natCmp x.length y.length) (lexCmp charCmp) a b
  | true, false => .lt
  | false, true => .gt
  | false, false => lexCmp charCmp a b

/-- Pre-release precedence: an empty pre-release (a release) is
greater than any non-empty one; non-empty lists compare
lexicographically by identifier. -/
def cmpPre (a b : List (List Char)) : Ordering :=
  match a, b with
  | [], [] => .eq
  | [], _ :: _ => .gt
  | _ :: _, [] => .lt
  | x :: xs, y :: ys => lexCmp cmpPreIdent (x :: xs) (y :: ys)

/-- Remove leading `'0'` characters (the crate's
`trim_start_matches('0')`). -/
def trimZeros (id : List Char) : List Char := id.dropWhile (fun c => c = '0')

/-- Build-metadata identifier order (`semver`'s `Ord for
BuildMetadata`, per identifier): numeric identifiers sort below
alphanumeric ones and compare by zero-trimmed length, then
zero-trimmed lexical order, then raw length (so `0 < 00 < 1 < 01`);
alphanumeric ones compare lexically. -/
def cmpBuildIdent (a b : List Char) : Ordering :=
  match identIsNumeric a, identIsNumeric b with
  | true, true =>
    thenCmp (fun x y => natCmp (trimZeros x).length (trimZeros y).length)
      (thenCmp (fun x y => lexCmp charCmp (trimZeros x) (trimZeros y))
        (fun x y => natCmp x.length y.length)) a b
  | true, false => .lt
  | false, true => .gt
  | false, false => lexCmp charCmp a b

/-- Build-metadata order: lexicographic by identifier (the empty
build metadata is the empty list, which sorts first). -/
def cmpBuild (a b : List (List Char)) : Ordering := lexCmp cmpBuildIdent a b

/-- `semver`'s `Ord for Version`: major, minor, patch numerically,
then pre-release precedence, then build metadata. -/
def cmpSemVer (a b : SemVer) : Ordering :=
  thenCmp (fun x y => natCmp x.major y.major)
    (thenCmp (fun x y => natCmp x.minor y.minor)
      (thenCmp (fun x y => natCmp x.patch y.patch)
        (thenCmp (fun x y => cmpPre x.pre y.pre)
          (fun x y => cmpBuild x.build y.build)))) a b

/-- `Iterator::max` over versions: `none` on an empty list, otherwise
a fold that keeps the current maximum and, on ties, the later
element (Rust's `max` returns the last maximal element). -/
def listMaxSemver : List SemVer → Option SemVer
  | [] => none
  | v :: vs => some (vs.foldl (fun m x => if cmpSemVer x m = .lt then m else x) v)

/-! ## Version resolver (`GitHub::get_latest_version`,
`src/lib.rs:367-382`) -/

/-- `s.starts_with('v')`: the first character is a lowercase `v`. -/
def startsWithV (s : String) : Bool := s.data.head? == some 'v'

/-- The per-tag normalisation of `src/lib.rs:372-375`: when the tag
starts with `'v'`, drop exactly that one character
(`s.chars().skip(1).collect()`); otherwise keep the tag unchanged. -/
def stripOneV (s : String) : String :=
  if startsWithV s then ⟨s.data.drop 1⟩ else s

/-- The versions that survive `Version::parse` after `v`-stripping
(`filter_map(Result::ok)` keeps exactly the successful parses, in
order). -/
def parsedVersions (tags : List String) : List SemVer :=
  tags.filterMap (fun s => semverParse (stripOneV s))

/-- The selection step of `get_latest_version`: maximum of the parsed
versions, or `NoReleases` when nothing parsed. -/
def resolveLatest (tags : List String) : Except LookupError SemVer :=
  match listMaxSemver (parsedVersions tags) with
  | some v => .ok v
  | none => .error .NoReleases

/-- `GitHub::get_latest_version`: `get_all_versions` then the
selection step. -/
def get_latest_version (transport : Nat → Option HttpResponse) :
    PanicOr (Except LookupError SemVer) :=
  match get_all_versions transport with
  | .panicked => .panicked
  | .ok (.error e) => .ok (.error e)
  | .ok (.ok versions) => .ok (resolveLatest versions)

/-! ## Concrete fixtures used by the claim theorems -/

/-- A minimal release record carrying only a tag name. -/
def mkItem (tag : String) : GitHubReleaseItem :=
  ⟨"", "", "", "", tag, "", false, false, "", "", ""⟩

/-- A distinct release record for page `p`. -/
def pageItem (p : Nat) : GitHubReleaseItem := mkItem (toString p)

/-- A `link` header announcing `rel="last"` at page 3. -/
def lastPage3Headers : List (String × String) :=
  [("link", "<https://api.github.com/repositories/1/releases?per_page=100&page=3>; rel=\"last\"")]

/-- A healthy upstream exposing `last = 3` pages via the continuation
header, with one distinct record per page. -/
def threePageTransport (p : Nat) : Option HttpResponse :=
  some ⟨200, lastPage3Headers, some [pageItem p]⟩

/-- A `link` header announcing `rel="last"` at page 4. -/
def lastPage4Headers : List (String × String) :=
  [("link", "<https://x?per_page=100&page=4>; rel=\"last\"")]

/-- Response of the 4-page upstream for page `p`. -/
def fourPageResp (p : Nat) : HttpResponse := ⟨200, lastPage4Headers, some [pageItem p]⟩

/-- A healthy upstream exposing `last = 4` pages. -/
def fourPageTransport (p : Nat) : Option HttpResponse := some (fourPageResp p)

/-- Response of a single-page upstream (no continuation header). -/
def singlePageResp (p : Nat) : HttpResponse := ⟨200, [], some [pageItem p]⟩

/-- A healthy upstream with no continuation header. -/
def singlePageTransport (p : Nat) : Option HttpResponse := some (singlePageResp p)

/-- An upstream that always answers with status `s` and an empty
body. -/
def statusTransport (s : Nat) : Nat → Option HttpResponse :=
  fun _ => some ⟨s, [], some []⟩

/-- A response function that is healthy on page 1 (status 200,
announcing `last = 3`) and answers status 500 from page 2 on. -/
def failingPage2Resp (p : Nat) : HttpResponse :=
  if p = 1 then ⟨200, lastPage3Headers, some [pageItem 1]⟩ else ⟨500, [], some []⟩

/-- Transport around `failingPage2Resp`: the pagination reaches
page 2 and meets a non-success status there. -/
def failingPage2Transport (p : Nat) : Option HttpResponse := some (failingPage2Resp p)

/-- The `link` header value of the crate's own unit test
`test_get_last_page_some` (`src/lib.rs:426-434`). -/
def githubTestLinkValue : String :=
  "<https://api.github.com/repositories/275449421/releases?per_page=1&page=2>; rel=\"next\", <https://api.github.com/repositories/275449421/releases?per_page=1&page=10>; rel=\"last\""

/-- The `rel="last"` comma-part of `githubTestLinkValue` (with the
leading space left by `split(',')`). -/
def githubTestLastEntry : String :=
  " <https://api.github.com/repositories/275449421/releases?per_page=1&page=10>; rel=\"last\""

/-- Headers with a `rel="last"` entry from which no `page=`-number
with an empty word-character prefix can be extracted. -/
def malformedLastHeaders : List (String × String) :=
  [("link", "<https://api.github.com/x>; rel=\"last\"")]

/-- A single-page upstream with the three tags of the crate's unit
test `test_get_all_versions_valid`. -/
def threeTagTransport : Nat → Option HttpResponse :=
  fun _ => some ⟨200, [], some [mkItem "v1.0.0", mkItem "v1.9.10", mkItem "v0.3.0"]⟩

/-- The three records served by `threeTagTransport`. -/
def threeTagRecords : List GitHubReleaseItem :=
  [mkItem "v1.0.0", mkItem "v1.9.10", mkItem "v0.3.0"]

/-- A repository with zero release records. -/
def emptyRepoTransport : Nat → Option HttpResponse :=
  fun _ => some ⟨200, [], some []⟩

/-! ## Comparator laws

`Iterator::max` returns a true maximum only because the `semver`
order is total and transitive.  The following develops symmetry and
`≤`-transitivity for the comparator combinators used above. -/

/-- A comparator answers symmetrically on swapped arguments. -/
def CmpSymm (c : α → α → Ordering) : Prop := ∀ a b, c a b = (c b a).swap

/-- The non-strict relation `c a b ≠ .gt` is transitive. -/
def CmpLeTrans (c : α → α → Ordering) : Prop :=
  ∀ a b d, c a b ≠ .gt → c b d ≠ .gt → c a d ≠ .gt

theorem cmp_refl {c : α → α → Ordering} (hs : CmpSymm c) (a : α) : c a a = .eq := by
  have h := hs a a
  cases hr : c a a <;> rw [hr] at h <;> simp [Ordering.swap] at h

theorem cmp_eq_symm {c : α → α → Ordering} (hs : CmpSymm c) {a b : α}
    (h : c a b = .eq) : c b a = .eq := by
  have hh := hs b a
  rw [h] at hh
  simpa [Ordering.swap] using hh

theorem cmp_lt_iff_gt {c : α → α → Ordering} (hs : CmpSymm c) {a b : α} :
    c a b = .lt ↔ c b a = .gt := by
  constructor
  · intro h
    have hh := hs b a
    rw [h] at hh
    simpa [Ordering.swap] using hh
  · intro h
    have hh := hs a b
    rw [h] at hh
    simpa [Ordering.swap] using hh

theorem cmp_ne_gt_of_ne_lt {c : α → α → Ordering} (hs : CmpSymm c) {a b : α}
    (h : c a b ≠ .lt) : c b a ≠ .gt := fun hc => h ((cmp_lt_iff_gt hs).mpr hc)

theorem cmp_eq_trans {c : α → α → Ordering} (hs : CmpSymm c) (ht : CmpLeTrans c)
    {a b d : α} (h1 : c a b = .eq) (h2 : c b d = .eq) : c a d = .eq := by
  have had : c a d ≠ .gt := ht a b d (by simp [h1]) (by simp [h2])
  have hda : c d a ≠ .gt :=
    ht d b a (by simp [cmp_eq_symm hs h2]) (by simp [cmp_eq_symm hs h1])
  cases hr : c a d
  · exact absurd ((cmp_lt_iff_gt hs).mp hr) hda
  · rfl
  · exact absurd hr had

theorem cmp_lt_le_trans {c : α → α → Ordering} (hs : CmpSymm c) (ht : CmpLeTrans c)
    {a b d : α} (h1 : c a b = .lt) (h2 : c b d ≠ .gt) : c a d = .lt := by
  have had : c a d ≠ .gt := ht a b d (by simp [h1]) h2
  cases hr : c a d
  · rfl
  · exfalso
    have hda : c d a = .eq := cmp_eq_symm hs hr
    have hba : c b a ≠ .gt := ht b d a h2 (by simp [hda])
    exact hba ((cmp_lt_iff_gt hs).mp h1)
  · exact absurd hr had

theorem cmp_le_lt_trans {c : α → α → Ordering} (hs : CmpSymm c) (ht : CmpLeTrans c)
    {a b d : α} (h1 : c a b ≠ .gt) (h2 : c b d = .lt) : c a d = .lt := by
  have had : c a d ≠ .gt := ht a b d h1 (by simp [h2])
  cases hr : c a d
  · rfl
  · exfalso
    have hda : c d a = .eq := cmp_eq_symm hs hr
    have hdb : c d b ≠ .gt := ht d a b (by simp [hda]) h1
    exact hdb ((cmp_lt_iff_gt hs).mp h2)
  · exact absurd hr had

theorem thenCmp_symm {f g : α → α → Ordering} (hf : CmpSymm f) (hg : CmpSymm g) :
    CmpSymm (thenCmp f g) := by
  intro a b
  unfold thenCmp
  rw [hf a b, hg a b]
  cases f b a <;> cases g b a <;> rfl

theorem thenCmp_leTrans {f g : α → α → Ordering} (hfs : CmpSymm f) (hft : CmpLeTrans f)
    (hgt : CmpLeTrans g) : CmpLeTrans (thenCmp f g) := by
  intro a b d h1 h2
  unfold thenCmp at *
  cases hab : f a b <;> rw [hab] at h1
  · cases hbd : f b d <;> rw [hbd] at h2
    · rw [cmp_lt_le_trans hfs hft hab (by simp [hbd])]; simp [Ordering.then]
    · rw [cmp_lt_le_trans hfs hft hab (by simp [hbd])]; simp [Ordering.then]
    · simp [Ordering.then] at h2
  · cases hbd : f b d <;> rw [hbd] at h2
    · rw [cmp_le_lt_trans hfs hft (by simp [hab]) hbd]; simp [Ordering.then]
    · rw [cmp_eq_trans hfs hft hab hbd]
      simp only [Ordering.then] at h1 h2 ⊢
      exact hgt a b d h1 h2
    · simp [Ordering.then] at h2
  · simp [Ordering.then] at h1

theorem onCmp_symm (k : α → β) {c : β → β → Ordering} (h : CmpSymm c) :
    CmpSymm (fun a b => c (k a) (k b)) := fun a b => h (k a) (k b)

theorem onCmp_leTrans (k : α → β) {c : β → β → Ordering} (h : CmpLeTrans c) :
    CmpLeTrans (fun a b => c (k a) (k b)) := fun a b d => h (k a) (k b) (k d)

theorem natCmp_symm : CmpSymm natCmp := by
  intro a b
  unfold natCmp
  rcases Nat.lt_trichotomy a b with h | h | h
  · rw [if_pos h, if_neg (by omega), if_pos h]; rfl
  · rw [if_neg (by omega), if_neg (by omega), if_neg (by omega), if_neg (by omega)]; rfl
  · rw [if_neg (by omega), if_pos h, if_pos h]; rfl

theorem natCmp_leTrans : CmpLeTrans natCmp := by
  intro a b d h1 h2
  unfold natCmp at *
  split_ifs at h1 h2 ⊢ <;> simp_all <;> omega

theorem charCmp_symm : CmpSymm charCmp := fun a b => natCmp_symm a.toNat b.toNat

theorem charCmp_leTrans : CmpLeTrans charCmp :=
  fun a b d => natCmp_leTrans a.toNat b.toNat d.toNat

theorem lexCmp_symm {c : α → α → Ordering} (hc : CmpSymm c) : CmpSymm (lexCmp c) := by
  intro a
  induction a with
  | nil => intro b; cases b <;> rfl
  | cons x xs ih =>
    intro b
    cases b with
    | nil => rfl
    | cons y ys =>
      have h := hc x y
      simp only [lexCmp]
      cases hyx : c y x <;> rw [hyx] at h <;> simp only [Ordering.swap] at h <;> rw [h]
      · rfl
      · exact ih ys
      · rfl

theorem lexCmp_leTrans {c : α → α → Ordering} (hs : CmpSymm c) (ht : CmpLeTrans c) :
    CmpLeTrans (lexCmp c) := by
  intro a
  induction a with
  | nil =>
    intro b d _ _
    cases d <;> simp [lexCmp]
  | cons x xs ih =>
    intro b d h1 h2
    cases b with
    | nil => simp [lexCmp] at h1
    | cons y ys =>
      cases d with
      | nil => simp [lexCmp] at h2
      | cons z zs =>
        simp only [lexCmp] at h1 h2 ⊢
        cases hxy : c x y <;> rw [hxy] at h1
        · cases hyz : c y z <;> rw [hyz] at h2
          · rw [cmp_lt_le_trans hs ht hxy (by simp [hyz])]; simp
          · rw [cmp_lt_le_trans hs ht hxy (by simp [hyz])]; simp
          · simp at h2
        · cases hyz : c y z <;> rw [hyz] at h2
          · rw [cmp_le_lt_trans hs ht (by simp [hxy]) hyz]; simp
          · rw [cmp_eq_trans hs ht hxy hyz]
            exact ih ys zs h1 h2
          · simp at h2
        · simp at h1

theorem cmpPreIdent_symm : CmpSymm cmpPreIdent := by
  intro a b
  unfold cmpPreIdent
  cases ha : identIsNumeric a <;> cases hb : identIsNumeric b <;> simp only
  · exact lexCmp_symm charCmp_symm a b
  · rfl
  · rfl
  · exact thenCmp_symm (onCmp_symm List.length natCmp_symm) (lexCmp_symm charCmp_symm) a b

theorem cmpPreIdent_leTrans : CmpLeTrans cmpPreIdent := by
  intro a b d h1 h2
  unfold cmpPreIdent at *
  cases ha : identIsNumeric a <;> cases hb : identIsNumeric b <;>
    cases hd : identIsNumeric d <;> simp only [ha, hb, hd] at h1 h2 ⊢
  all_goals first
    | exact absurd rfl h1
    | exact absurd rfl h2
    | decide
    | exact lexCmp_leTrans charCmp_symm charCmp_leTrans a b d h1 h2
    | exact thenCmp_leTrans (onCmp_symm List.length natCmp_symm)
        (onCmp_leTrans List.length natCmp_leTrans)
        (lexCmp_leTrans charCmp_symm charCmp_leTrans) a b d h1 h2

theorem cmpPre_symm : CmpSymm cmpPre := by
  intro a b
  cases a <;> cases b <;> simp only [cmpPre]
  all_goals first
    | rfl
    | exact lexCmp_symm cmpPreIdent_symm _ _

theorem cmpPre_leTrans : CmpLeTrans cmpPre := by
  intro a b d h1 h2
  cases a <;> cases b <;> cases d <;> simp only [cmpPre] at h1 h2 ⊢
  all_goals first
    | exact absurd rfl h1
    | exact absurd rfl h2
    | decide
    | exact lexCmp_leTrans cmpPreIdent_symm cmpPreIdent_leTrans _ _ _ h1 h2

theorem cmpBuildIdent_symm : CmpSymm cmpBuildIdent := by
  intro a b
  unfold cmpBuildIdent
  cases ha : identIsNumeric a <;> cases hb : identIsNumeric b <;> simp only
  · exact lexCmp_symm charCmp_symm a b
  · rfl
  · rfl
  · exact thenCmp_symm (onCmp_symm (fun x => (trimZeros x).length) natCmp_symm)
      (thenCmp_symm (onCmp_symm trimZeros (lexCmp_symm charCmp_symm))
        (onCmp_symm List.length natCmp_symm)) a b

theorem cmpBuildIdent_leTrans : CmpLeTrans cmpBuildIdent := by
  intro a b d h1 h2
  unfold cmpBuildIdent at *
  cases ha : identIsNumeric a <;> cases hb : identIsNumeric b <;>
    cases hd : identIsNumeric d <;> simp only [ha, hb, hd] at h1 h2 ⊢
  all_goals first
    | exact absurd rfl h1
    | exact absurd rfl h2
    | decide
    | exact lexCmp_leTrans charCmp_symm charCmp_leTrans a b d h1 h2
    | exact thenCmp_leTrans (onCmp_symm (fun x => (trimZeros x).length) natCmp_symm)
        (onCmp_leTrans (fun x => (trimZeros x).length) natCmp_leTrans)
        (thenCmp_leTrans (onCmp_symm trimZeros (lexCmp_symm charCmp_symm))
          (onCmp_leTrans trimZeros (lexCmp_leTrans charCmp_symm charCmp_leTrans))
          (onCmp_leTrans List.length natCmp_leTrans)) a b d h1 h2

theorem cmpBuild_symm : CmpSymm cmpBuild := lexCmp_symm cmpBuildIdent_symm

theorem cmpBuild_leTrans : CmpLeTrans cmpBuild :=
  lexCmp_leTrans cmpBuildIdent_symm cmpBuildIdent_leTrans

theorem cmpSemVer_symm : CmpSymm cmpSemVer :=
  thenCmp_symm (onCmp_symm SemVer.major natCmp_symm)
    (thenCmp_symm (onCmp_symm SemVer.minor natCmp_symm)
      (thenCmp_symm (onCmp_symm SemVer.patch natCmp_symm)
        (thenCmp_symm (onCmp_symm SemVer.pre cmpPre_symm)
          (onCmp_symm SemVer.build cmpBuild_symm))))

theorem cmpSemVer_leTrans : CmpLeTrans cmpSemVer :=
  thenCmp_leTrans (onCmp_symm SemVer.major natCmp_symm)
    (onCmp_leTrans SemVer.major natCmp_leTrans)
    (thenCmp_leTrans (onCmp_symm SemVer.minor natCmp_symm)
      (onCmp_leTrans SemVer.minor natCmp_leTrans)
      (thenCmp_leTrans (onCmp_symm SemVer.patch natCmp_symm)
        (onCmp_leTrans SemVer.patch natCmp_leTrans)
        (thenCmp_leTrans (onCmp_symm SemVer.pre cmpPre_symm)
          (onCmp_leTrans SemVer.pre cmpPre_leTrans)
          (onCmp_leTrans SemVer.build cmpBuild_leTrans))))

/-! ## The fold implementing `Iterator::max` returns a maximum -/

theorem foldl_max_spec (l : List SemVer) (m : SemVer) :
    (l.foldl (fun m x => if cmpSemVer x m = .lt then m else x) m = m ∨
      l.foldl (fun m x => if cmpSemVer x m = .lt then m else x) m ∈ l) ∧
    cmpSemVer m (l.foldl (fun m x => if cmpSemVer x m = .lt then m else x) m) ≠ .gt ∧
    ∀ x ∈ l, cmpSemVer x (l.foldl (fun m x => if cmpSemVer x m = .lt then m else x) m) ≠ .gt := by
  induction l generalizing m with
  | nil =>
    refine ⟨Or.inl rfl, ?_, by simp⟩
    simp [cmp_refl cmpSemVer_symm m]
  | cons x xs ih =>
    have hstep1 : cmpSemVer m (if cmpSemVer x m = .lt then m else x) ≠ .gt := by
      by_cases hc : cmpSemVer x m = .lt
      · rw [if_pos hc]; simp [cmp_refl cmpSemVer_symm m]
      · rw [if_neg hc]; exact cmp_ne_gt_of_ne_lt cmpSemVer_symm hc
    have hstep2 : cmpSemVer x (if cmpSemVer x m = .lt then m else x) ≠ .gt := by
      by_cases hc : cmpSemVer x m = .lt
      · rw [if_pos hc, hc]; simp
      · rw [if_neg hc]; simp [cmp_refl cmpSemVer_symm x]
    obtain ⟨hmem, hle, hall⟩ := ih (if cmpSemVer x m = .lt then m else x)
    refine ⟨?_, ?_, ?_⟩
    · rcases hmem with hmem | hmem
      · rw [List.foldl_cons, hmem]
        by_cases hc : cmpSemVer x m = .lt
        · rw [if_pos hc]; exact Or.inl rfl
        · rw [if_neg hc]; exact Or.inr (List.mem_cons_self x xs)
      · exact Or.inr (List.mem_cons_of_mem x hmem)
    · rw [List.foldl_cons]
      exact cmpSemVer_leTrans m _ _ hstep1 hle
    · intro y hy
      rw [List.foldl_cons]
      rcases List.mem_cons.mp hy with hy | hy
      · rw [hy]
        exact cmpSemVer_leTrans x _ _ hstep2 hle
      · exact hall y hy

/-- `listMaxSemver` returns an element of the list that no element of
the list exceeds in the `semver` order. -/
theorem listMaxSemver_spec (l : List SemVer) (v : SemVer) (h : listMaxSemver l = some v) :
    v ∈ l ∧ ∀ x ∈ l, cmpSemVer x v ≠ .gt := by
  cases l with
  | nil => simp [listMaxSemver] at h
  | cons w ws =>
    simp only [listMaxSemver, Option.some.injEq] at h
    obtain ⟨hmem, hle, hall⟩ := foldl_max_spec ws w
    subst h
    constructor
    · rcases hmem with hmem | hmem
      · rw [hmem]; exact List.mem_cons_self w ws
      · exact List.mem_cons_of_mem w hmem
    · intro x hx
      rcases List.mem_cons.mp hx with hx | hx
      · rw [hx]; exact hle
      · exact hall x hx

/-! ## Paginator lemmas -/

/-- Without a `link` header, `get_last_page` reports no last page. -/
theorem get_last_page_no_link (hs : List (String × String))
    (h : headerGet hs "link" = none) : get_last_page hs = .ok (.ok none) := by
  unfold get_last_page
  rw [h]

/-- Behaviour of the continuation loop on a fully healthy transport
(`resp p` with a success status whose body decodes to `bodyf p`):
starting from any `page < last`, the loop requests exactly the pages
`page, page+1, …, last-1` and collects their bodies in order. -/
theorem query_rest_spec (transport : Nat → Option HttpResponse)
    (resp : Nat → HttpResponse) (bodyf : Nat → List GitHubReleaseItem)
    (hT : ∀ p, transport p = some (resp p))
    (hS : ∀ p, statusIsSuccess (resp p).status = true)
    (hB : ∀ p, (resp p).body = some (bodyf p))
    (last : Nat) :
    ∀ (n page : Nat), last - page = n → page < last →
      query_rest transport last page =
        (List.range' page (last - page),
          .ok ((List.range' page (last - page)).map bodyf)) := by
  intro n
  induction n with
  | zero => intro page hn hlt; omega
  | succ k ih =>
    intro page hn hlt
    rw [query_rest]
    rw [hT page]
    simp only [hS page, hB page, if_true]
    by_cases hle : last ≤ page + 1
    · rw [dif_pos hle]
      have h1 : last - page = 1 := by omega
      rw [h1, List.range'_succ]
      simp [List.range']
    · rw [dif_neg hle]
      have ih' := ih (page + 1) (by omega) (by omega)
      simp only [ih']
      have h1 : last - page = (last - (page + 1)) + 1 := by omega
      rw [h1, List.range'_succ]
      simp [Except.map]

/-- Behaviour of `GitHub::query` on a fully healthy transport whose
first response announces a last page: the requested pages are
`1, …, max 1 (last - 1)` and the result is the concatenation of
exactly those pages' bodies.  (The loop increments the page counter
and stops as soon as it reaches `last`, so page `last` itself is
never requested.) -/
theorem query_run_spec (transport : Nat → Option HttpResponse)
    (resp : Nat → HttpResponse) (bodyf : Nat → List GitHubReleaseItem)
    (hT : ∀ p, transport p = some (resp p))
    (hS : ∀ p, statusIsSuccess (resp p).status = true)
    (hB : ∀ p, (resp p).body = some (bodyf p))
    (last : Nat)
    (hl : get_last_page (resp 1).headers = .ok (.ok (some last))) :
    query_run transport =
      (List.range' 1 (max 1 (last - 1)),
        .ok (.ok ((List.range' 1 (max 1 (last - 1))).map bodyf).flatten)) := by
  unfold query_run
  rw [hT 1]
  simp only [hS 1, hl, hB 1, if_true]
  by_cases hle : last ≤ 1 + 1
  · rw [if_pos hle]
    have hmax : max 1 (last - 1) = 1 := by omega
    rw [hmax]
    simp [List.range'_succ]
  · rw [if_neg hle]
    have hq := query_rest_spec transport resp bodyf hT hS hB last (last - 2) 2 (by omega)
      (by omega)
    simp only [hq]
    have hmax : max 1 (last - 1) = (last - 2) + 1 := by omega
    rw [hmax, List.range'_succ]
    simp [Except.map]

/-- Behaviour of `GitHub::query` on a healthy transport whose first
response has no last-page information: exactly one request is made
and only the first page's records are returned. -/
theorem query_run_single (transport : Nat → Option HttpResponse)
    (resp : Nat → HttpResponse) (bodyf : Nat → List GitHubReleaseItem)
    (hT : ∀ p, transport p = some (resp p))
    (hS : ∀ p, statusIsSuccess (resp p).status = true)
    (hB : ∀ p, (resp p).body = some (bodyf p))
    (hl : get_last_page (resp 1).headers = .ok (.ok none)) :
    query_run transport = ([1], .ok (.ok (bodyf 1))) := by
  unfold query_run
  rw [hT 1]
  simp only [hS 1, hl, hB 1, if_true]
  simp

/-- Behaviour of the continuation loop when a later page answers with
a non-success status: pages `page, …, k-1` are healthy, page `k`
(still below `last`) is not, and the loop aborts at page `k` with the
dispatched status error, having requested pages `page, …, k`. -/
theorem query_rest_fail (transport : Nat → Option HttpResponse)
    (resp : Nat → HttpResponse) (bodyf : Nat → List GitHubReleaseItem)
    (hT : ∀ p, transport p = some (resp p))
    (k last : Nat)
    (hS : ∀ p, 1 ≤ p → p < k → statusIsSuccess (resp p).status = true)
    (hB : ∀ p, 1 ≤ p → p < k → (resp p).body = some (bodyf p))
    (hF : statusIsSuccess (resp k).status = false)
    (hkl : k < last) :
    ∀ (n page : Nat), k - page = n → 1 ≤ page → page ≤ k →
      query_rest transport last page =
        (List.range' page (k - page + 1), .error (statusError (resp k).status)) := by
  intro n
  induction n with
  | zero =>
    intro page hn hp1 hpk
    have hpe : page = k := by omega
    subst hpe
    rw [query_rest]
    simp only [hT page, hF]
    rw [if_neg (by simp)]
    have h1 : page - page + 1 = 1 := by omega
    rw [h1, List.range'_succ]
    simp [List.range']
  | succ m ih =>
    intro page hn hp1 hpk
    have hpl : page < k := by omega
    rw [query_rest]
    simp only [hT page, hS page hp1 hpl, hB page hp1 hpl, if_true]
    rw [dif_neg (show ¬ last ≤ page + 1 by omega)]
    simp only [ih (page + 1) (by omega) (by omega) (by omega), Except.map]
    have h2 : k - page + 1 = (k - (page + 1) + 1) + 1 := by omega
    have h3 : List.range' page (k - page + 1) =
        page :: List.range' (page + 1) (k - (page + 1) + 1) := by
      rw [h2, List.range'_succ]
    rw [h3]

/-- When every comma-part that mentions `rel="last"` yields no
empty-group-1 capture, the scan loop falls through to `Ok(None)`. -/
theorem scanParts_none (ps : List (List Char))
    (h : ∀ p ∈ ps, containsSub p relLastPat = true → findCapture (capturesIter p) = none) :
    scanParts ps = .ok none := by
  induction ps with
  | nil => rfl
  | cons p ps ih =>
    simp only [scanParts]
    by_cases hc : containsSub p relLastPat = true
    · rw [if_pos hc, h p (List.mem_cons_self p ps) hc]
      exact ih fun q hq => h q (List.mem_cons_of_mem p hq)
    · rw [if_neg hc]
      exact ih fun q hq => h q (List.mem_cons_of_mem p hq)

/-- `listMaxSemver` is `none` exactly on the empty list. -/
theorem listMaxSemver_eq_none_iff (l : List SemVer) : listMaxSemver l = none ↔ l = [] := by
  cases l <;> simp [listMaxSemver]

/-- A tag whose (stripped) name does not parse contributes nothing to
the latest-version selection. -/
theorem resolveLatest_cons_none (s : String) (rest : List String)
    (hpar : semverParse (stripOneV s) = none) :
    resolveLatest (s :: rest) = resolveLatest rest := by
  unfold resolveLatest parsedVersions
  simp [List.filterMap_cons, hpar]

/-! ## Claims -/

/-- C7: for every header collection without a `link` header (under
the case-insensitive lookup), the continuation parser returns
`Ok(None)` — it neither fails nor invents a page number. -/
theorem claim_C7_no_link_header (hs : List (String × String))
    (h : headerGet hs "link" = none) :
    get_last_page hs = .ok (.ok none) :=
  get_last_page_no_link hs h

/-- Witness for C7 at the empty header collection. -/
theorem claim_C7_no_link_header_witness :
    headerGet [] "link" = none ∧ get_last_page [] = .ok (.ok none) :=
  ⟨rfl, claim_C7_no_link_header [] rfl⟩

/-- C3: for every header collection whose `link` header carries the
canonical two-entry value with `per_page=1&page=2` (`rel="next"`) and
`per_page=1&page=10` (`rel="last"`), the continuation parser returns
10, not 1; the regex scan of the `rel="last"` entry sees both the
`per_page=1` occurrence (group 1 = `per_`) and the `page=10`
occurrence (group 1 empty) and only the empty-prefix one is
accepted. -/
theorem claim_C3_per_page_disambiguation (hs : List (String × String))
    (h : headerGet hs "link" = some githubTestLinkValue) :
    get_last_page hs = .ok (.ok (some 10)) ∧
    capturesIter githubTestLastEntry.data =
      [(['p', 'e', 'r', '_'], ['1']), ([], ['1', '0'])] ∧
    splitComma githubTestLinkValue.data ≠ [githubTestLastEntry.data] := by
  refine ⟨?_, by decide, by decide⟩
  unfold get_last_page
  rw [h]
  decide

/-- Witness for C3 at a singleton header collection holding the
canonical `link` value. -/
theorem claim_C3_per_page_disambiguation_witness :
    get_last_page [("link", githubTestLinkValue)] = .ok (.ok (some 10)) :=
  (claim_C3_per_page_disambiguation [("link", githubTestLinkValue)] (by decide)).1

/-- C9 counterexample: a header collection whose `link` header has a
`rel="last"` entry but no extractable page number does NOT make the
parser panic — `get_last_page` returns `Ok(None)` (the inner capture
loop finds nothing, the outer loop falls through to line 409). -/
theorem claim_C9_counterexample :
    get_last_page malformedLastHeaders = .ok (.ok none) ∧
    get_last_page malformedLastHeaders ≠ .panicked := by
  refine ⟨by decide, by decide⟩

/-- C9 (amended): for every header collection whose `link` header
decodes to visible ASCII and in which no `rel="last"` comma-part
yields an empty-prefix `page=` capture, the continuation parser
returns `Ok(None)` rather than panicking; the `expect` panic is
reachable only from a successfully extracted digit string (on 64-bit
overflow). -/
theorem claim_C9_amended_returns_none (hs : List (String × String)) (l : String)
    (hl : headerGet hs "link" = some l)
    (hv : l.data.all isVisibleAsciiOrTab = true)
    (hnone : ∀ p ∈ splitComma l.data, containsSub p relLastPat = true →
      findCapture (capturesIter p) = none) :
    get_last_page hs = .ok (.ok none) := by
  unfold get_last_page
  simp only [hl, hv, if_true]
  rw [scanParts_none _ hnone]

/-- Witness for the amended C9 at the malformed-`rel="last"`
headers. -/
theorem claim_C9_amended_returns_none_witness :
    get_last_page malformedLastHeaders = .ok (.ok none) :=
  claim_C9_amended_returns_none malformedLastHeaders
    "<https://api.github.com/x>; rel=\"last\"" (by decide) (by decide) (by decide)

/-- C1: evaluation of `GitHub::query` against an upstream whose first
response signals `last = 3` pages.  The loop requests only pages 1
and 2 (`page += 1; if page >= last break` skips the final page) and
returns only those two pages' records — not the 3 requests and
3-page concatenation the claim demands. -/
theorem claim_C1_three_page_eval :
    get_last_page lastPage3Headers = .ok (.ok (some 3)) ∧
    query_run threePageTransport = ([1, 2], .ok (.ok [pageItem 1, pageItem 2])) ∧
    (query_run threePageTransport).1 ≠ [1, 2, 3] := by
  have h3 : get_last_page lastPage3Headers = .ok (.ok (some 3)) := by decide
  have hrun := query_run_spec threePageTransport
    (fun p => ⟨200, lastPage3Headers, some [pageItem p]⟩) (fun p => [pageItem p])
    (fun _ => rfl) (fun _ => rfl) (fun _ => rfl) 3 h3
  refine ⟨h3, ?_, ?_⟩
  · rw [hrun]; decide
  · rw [hrun]; decide

/-- C2: termination policy of the pagination loop on a healthy
transport.  When the first response determines a last page `last`,
the requested pages are exactly `1, …, max 1 (last - 1)`: the loop
stops right before the first page whose number, after the increment,
would reach `last`.  When the first response has no continuation
header, only page 1 is requested and only its records are
returned. -/
theorem claim_C2_termination_policy (transport : Nat → Option HttpResponse)
    (resp : Nat → HttpResponse) (bodyf : Nat → List GitHubReleaseItem)
    (hT : ∀ p, transport p = some (resp p))
    (hS : ∀ p, statusIsSuccess (resp p).status = true)
    (hB : ∀ p, (resp p).body = some (bodyf p)) :
    (∀ last, get_last_page (resp 1).headers = .ok (.ok (some last)) →
      (query_run transport).1 = List.range' 1 (max 1 (last - 1))) ∧
    (headerGet (resp 1).headers "link" = none →
      query_run transport = ([1], .ok (.ok (bodyf 1)))) := by
  constructor
  · intro last hl
    rw [query_run_spec transport resp bodyf hT hS hB last hl]
  · intro hnone
    exact query_run_single transport resp bodyf hT hS hB (get_last_page_no_link _ hnone)

/-- Witness for C2: a 4-page upstream is queried for pages 1, 2, 3
and a header-less upstream for page 1 only. -/
theorem claim_C2_termination_policy_witness :
    (query_run fourPageTransport).1 = List.range' 1 (max 1 (4 - 1)) ∧
    query_run singlePageTransport = ([1], .ok (.ok [pageItem 1])) :=
  ⟨(claim_C2_termination_policy fourPageTransport fourPageResp (fun p => [pageItem p])
      (fun _ => rfl) (fun _ => rfl) (fun _ => rfl)).1 4 (by decide),
    (claim_C2_termination_policy singlePageTransport singlePageResp (fun p => [pageItem p])
      (fun _ => rfl) (fun _ => rfl) (fun _ => rfl)).2 (by decide)⟩

/-- C5: every response with a status outside the success range aborts
the query immediately with exactly the dispatched error — 404 ↦
`RepositoryNotFound`, 401/403 ↦ `AuthenticationError(status)`,
anything else ↦ `ErrorHttpResponse(status)`.  The failing response
may be the first one (`k = 1`) or any later page the pagination
reaches (`k ≥ 2`, requested because the first response announced a
last page beyond `k`): the loop stops at page `k`, issues no further
request, and the error carries page `k`'s status. -/
theorem claim_C5_status_dispatch (transport : Nat → Option HttpResponse)
    (resp : Nat → HttpResponse) (bodyf : Nat → List GitHubReleaseItem)
    (k last : Nat)
    (hT : ∀ p, transport p = some (resp p))
    (hS : ∀ p, 1 ≤ p → p < k → statusIsSuccess (resp p).status = true)
    (hB : ∀ p, 1 ≤ p → p < k → (resp p).body = some (bodyf p))
    (hF : statusIsSuccess (resp k).status = false)
    (hreach : k = 1 ∨
      (2 ≤ k ∧ get_last_page (resp 1).headers = .ok (.ok (some last)) ∧ k < last)) :
    query_run transport = (List.range' 1 k, .ok (.error (statusError (resp k).status))) ∧
    ((resp k).status = 404 → statusError (resp k).status = .RepositoryNotFound) ∧
    (((resp k).status = 401 ∨ (resp k).status = 403) →
      statusError (resp k).status = .AuthenticationError (resp k).status) ∧
    ((resp k).status ≠ 404 → (resp k).status ≠ 401 → (resp k).status ≠ 403 →
      statusError (resp k).status = .ErrorHttpResponse (resp k).status) := by
  refine ⟨?_, ?_, ?_, ?_⟩
  · rcases hreach with hk | ⟨hk2, hl, hkl⟩
    · subst hk
      unfold query_run
      simp only [hT 1, hF]
      rw [if_neg (by simp)]
      have h1 : List.range' 1 1 = [1] := rfl
      rw [h1]
    · unfold query_run
      simp only [hT 1, hS 1 (by omega) (by omega), hl, hB 1 (by omega) (by omega), if_true]
      rw [if_neg (show ¬ last ≤ 1 + 1 by omega)]
      simp only [query_rest_fail transport resp bodyf hT k last hS hB hF hkl (k - 2) 2
        (by omega) (by omega) (by omega)]
      simp only [Except.map]
      have h2 : List.range' 1 k = 1 :: List.range' 2 (k - 2 + 1) := by
        have hy : k - 2 + 1 = k - 1 := by omega
        rw [hy]
        conv_lhs => rw [show k = (k - 1) + 1 from by omega]
        rw [List.range'_succ]
      rw [h2]
  · intro h
    unfold statusError
    rw [if_pos h]
  · intro h
    unfold statusError
    rw [if_neg (by rcases h with h | h <;> omega), if_pos h]
  · intro h404 h401 h403
    unfold statusError
    rw [if_neg h404, if_neg (by rintro (h | h); exact h401 h; exact h403 h)]

/-- Witness for C5 at upstreams answering 404, 401 and 500 on the
first page, and at an upstream whose page 2 (reached because page 1
announced `last = 3`) answers 500. -/
theorem claim_C5_status_dispatch_witness :
    query_run (statusTransport 404) = ([1], .ok (.error .RepositoryNotFound)) ∧
    query_run (statusTransport 401) = ([1], .ok (.error (.AuthenticationError 401))) ∧
    query_run (statusTransport 500) = ([1], .ok (.error (.ErrorHttpResponse 500))) ∧
    query_run failingPage2Transport = ([1, 2], .ok (.error (.ErrorHttpResponse 500))) := by
  have h404 := claim_C5_status_dispatch (statusTransport 404) (fun _ => ⟨404, [], some []⟩)
    (fun _ => []) 1 0 (fun _ => rfl) (fun p hp1 hp2 => by omega) (fun p hp1 hp2 => by omega)
    rfl (Or.inl rfl)
  have h401 := claim_C5_status_dispatch (statusTransport 401) (fun _ => ⟨401, [], some []⟩)
    (fun _ => []) 1 0 (fun _ => rfl) (fun p hp1 hp2 => by omega) (fun p hp1 hp2 => by omega)
    rfl (Or.inl rfl)
  have h500 := claim_C5_status_dispatch (statusTransport 500) (fun _ => ⟨500, [], some []⟩)
    (fun _ => []) 1 0 (fun _ => rfl) (fun p hp1 hp2 => by omega) (fun p hp1 hp2 => by omega)
    rfl (Or.inl rfl)
  have hp2 := claim_C5_status_dispatch failingPage2Transport failingPage2Resp
    (fun _ => [pageItem 1]) 2 3 (fun _ => rfl)
    (fun p hp1 hp2 => by
      have hpe : p = 1 := by omega
      subst hpe
      rfl)
    (fun p hp1 hp2 => by
      have hpe : p = 1 := by omega
      subst hpe
      rfl)
    (by decide) (Or.inr ⟨by omega, by decide, by omega⟩)
  refine ⟨?_, ?_, ?_, ?_⟩
  · rw [h404.1, h404.2.1 rfl]
    rfl
  · rw [h401.1, h401.2.2.1 (Or.inl rfl)]
    rfl
  · rw [h500.1, h500.2.2.2 (by decide) (by decide) (by decide)]
    rfl
  · rw [hp2.1, hp2.2.2.2 (by decide) (by decide) (by decide)]
    rfl

/-- C4: whenever the latest-version resolution succeeds, its result
is one of the versions that survived `v`-stripping and parsing, and
no surviving version exceeds it in the `semver` total order;
stripping removes exactly one leading `'v'` (and nothing otherwise),
unparseable tags are silently discarded, and on the tags
`["uhhhh", "v3.0.0-alpha", "v1.9.10"]` the resolution returns
`3.0.0-alpha`. -/
theorem claim_C4_latest_version_resolution (tags : List String) (v : SemVer)
    (h : resolveLatest tags = .ok v) :
    v ∈ parsedVersions tags ∧
    (∀ w ∈ parsedVersions tags, cmpSemVer w v ≠ .gt) ∧
    (∀ cs : List Char, stripOneV ⟨'v' :: cs⟩ = ⟨cs⟩) ∧
    (∀ s : String, startsWithV s = false → stripOneV s = s) ∧
    (∀ (s : String) (rest : List String), semverParse (stripOneV s) = none →
      resolveLatest (s :: rest) = resolveLatest rest) ∧
    resolveLatest ["uhhhh", "v3.0.0-alpha", "v1.9.10"] =
      .ok ⟨3, 0, 0, [['a', 'l', 'p', 'h', 'a']], []⟩ := by
  have hm : listMaxSemver (parsedVersions tags) = some v := by
    unfold resolveLatest at h
    cases hm : listMaxSemver (parsedVersions tags) with
    | none => rw [hm] at h; simp at h
    | some w => rw [hm] at h; simp at h; rw [h]
  obtain ⟨hmem, hub⟩ := listMaxSemver_spec _ _ hm
  refine ⟨hmem, hub, ?_, ?_, resolveLatest_cons_none, by decide⟩
  · intro cs
    simp [stripOneV, startsWithV]
  · intro s hsw
    simp [stripOneV, hsw]

/-- Witness for C4 at the singleton tag list `["v1.0.0"]`. -/
theorem claim_C4_latest_version_resolution_witness :
    (⟨1, 0, 0, [], []⟩ : SemVer) ∈ parsedVersions ["v1.0.0"] ∧
    resolveLatest ["uhhhh", "v3.0.0-alpha", "v1.9.10"] =
      .ok ⟨3, 0, 0, [['a', 'l', 'p', 'h', 'a']], []⟩ := by
  have h := claim_C4_latest_version_resolution ["v1.0.0"] ⟨1, 0, 0, [], []⟩ (by decide)
  exact ⟨h.1, h.2.2.2.2.2⟩

/-- C6: the latest-version resolution fails with `NoReleases` exactly
when no tag survives parsing — which happens both for zero release
records and for records none of whose tags parse, and the error value
is the same in the two situations. -/
theorem claim_C6_no_releases (tags : List String) :
    (resolveLatest tags = .error .NoReleases ↔ parsedVersions tags = []) ∧
    resolveLatest [] = .error .NoReleases ∧
    resolveLatest ["uhhhh"] = .error .NoReleases := by
  refine ⟨?_, by decide, by decide⟩
  constructor
  · intro h
    rw [← listMaxSemver_eq_none_iff]
    cases hm : listMaxSemver (parsedVersions tags) with
    | none => rfl
    | some v =>
      unfold resolveLatest at h
      rw [hm] at h
      simp at h
  · intro hp
    unfold resolveLatest
    rw [(listMaxSemver_eq_none_iff _).mpr hp]

/-- C8: fetching all version strings maps `tag_name` over the queried
records, preserving order and length; in particular zero records give
the empty list and no error. -/
theorem claim_C8_all_versions (transport : Nat → Option HttpResponse)
    (recs : List GitHubReleaseItem)
    (h : (query_run transport).2 = .ok (.ok recs)) :
    get_all_versions transport = .ok (.ok (recs.map (fun r => r.tag_name))) ∧
    (recs.map (fun r => r.tag_name)).length = recs.length ∧
    (recs = [] → get_all_versions transport = .ok (.ok [])) := by
  have hg : get_all_versions transport = .ok (.ok (recs.map (fun r => r.tag_name))) := by
    unfold get_all_versions
    rw [h]
  refine ⟨hg, by simp, ?_⟩
  intro he
  rw [hg, he]
  rfl

/-- Witness for C8 at the crate's three-tag unit-test repository and
at an empty repository. -/
theorem claim_C8_all_versions_witness :
    get_all_versions threeTagTransport = .ok (.ok (threeTagRecords.map (fun r => r.tag_name))) ∧
    threeTagRecords.map (fun r => r.tag_name) = ["v1.0.0", "v1.9.10", "v0.3.0"] ∧
    get_all_versions emptyRepoTransport = .ok (.ok []) :=
  ⟨(claim_C8_all_versions threeTagTransport threeTagRecords (by decide)).1, by decide,
    (claim_C8_all_versions emptyRepoTransport [] (by decide)).2.2 rfl⟩

/-- C10: the `v`-stripping is case-sensitive and removes exactly one
character: a tag starting with `'V'` is not stripped at all, a tag
starting with `"vv"` loses only the first `'v'`; in both cases the
remainder fails semantic-version parsing and the tag is silently
discarded from the latest-version selection. -/
theorem claim_C10_strict_v_handling (cs : List Char) (tags : List String) :
    stripOneV ⟨'V' :: cs⟩ = ⟨'V' :: cs⟩ ∧
    semverParse ⟨'V' :: cs⟩ = none ∧
    stripOneV ⟨'v' :: 'v' :: cs⟩ = ⟨'v' :: cs⟩ ∧
    semverParse ⟨'v' :: cs⟩ = none ∧
    resolveLatest (⟨'V' :: cs⟩ :: tags) = resolveLatest tags ∧
    resolveLatest (⟨'v' :: 'v' :: cs⟩ :: tags) = resolveLatest tags := by
  have h1 : stripOneV ⟨'V' :: cs⟩ = ⟨'V' :: cs⟩ := rfl
  have h2 : semverParse ⟨'V' :: cs⟩ = none := rfl
  have h3 : stripOneV ⟨'v' :: 'v' :: cs⟩ = ⟨'v' :: cs⟩ := rfl
  have h4 : semverParse ⟨'v' :: cs⟩ = none := rfl
  refine ⟨h1, h2, h3, h4, ?_, ?_⟩
  · exact resolveLatest_cons_none _ _ (by rw [h1]; exact h2)
  · exact resolveLatest_cons_none _ _ (by rw [h3]; exact h4)

end GithubReleaseCheck
